import Mathlib

/-!
A shallow embedding of the Filecoin verified-registry actor
(actors/builtin/verifreg/verified_registry_actor.go) and of the metrics
block-store wrapper (support/ipld/store.go), together with proofs of the
specified invariants and per-method contracts.

Addresses are modelled as natural numbers (id addresses); raw, unresolved
addresses are also naturals together with a resolution function
`RawAddr → Option Addr` supplied by the runtime.  DataCap and StoragePower
are arbitrary-precision signed integers (`Int`), as in the source
(`big.Int`).  The two persistent HAMTs of the actor state are modelled as
association lists `List (Addr × Int)` observed through `mapGet`; `mapPut`
and `mapDelete` mirror the HAMT `Put` and `Delete` operations (`Delete`
fails on an absent key).  Each actor method becomes a pure function from
the pre-state and the message (caller, params) to `Except ExitCode State`:
`Except.error` is an abort of the enclosing transaction (no state change
is committed), `Except.ok` carries the committed post-state.
-/

deriving instance DecidableEq for Except

namespace VerifReg

/-- Resolved id-form address. -/
abbrev Addr := Nat

/-- An address parameter as supplied by a caller, before resolution. -/
abbrev RawAddr := Nat

/-- DataCap, a signed arbitrary-precision byte count (`big.Int` in the source). -/
abbrev DataCap := Int

/-- An address-keyed persistent map (HAMT in the source), modelled as an
association list observed through `mapGet`. -/
abbrev AddrMap := List (Addr × Int)

/-- Exit codes actually distinguished by the embedded methods.
`sysErrForbidden` is the failure of `ValidateImmediateCallerIs`;
`assertViolation` is the panic of a failed `Assert`. -/
inductive ExitCode where
  | illegalArgument
  | illegalState
  | notFound
  | sysErrForbidden
  | assertViolation
deriving DecidableEq, Repr

/-- Modelled from the spec: the actor state record (`State` in
verified_registry_state.go, which is outside src/): the root key plus the
two map roots; here the maps are held inline rather than by root hash. -/
structure State where
  rootKey : Addr
  verifiers : AddrMap
  verifiedClients : AddrMap
deriving DecidableEq, Repr

/-- Modelled from the spec: the distinguished system actor address
(`builtin.SystemActorAddr`, outside src/); its concrete value is immaterial. -/
def SystemActorAddr : Addr := 0

/-- Modelled from the spec: the storage-market collaborator address
(`builtin.StorageMarketActorAddr`, outside src/); its concrete value is
immaterial. -/
def StorageMarketActorAddr : Addr := 5

/-- HAMT `Get`: value at the first occurrence of key `k`. -/
def mapGet : AddrMap → Addr → Option Int
  | [], _ => none
  | (k1, v) :: rest, k => if k1 = k then some v else mapGet rest k

/-- HAMT `Put`: bind key `k` to `v`, replacing any existing binding. -/
def mapPut (m : AddrMap) (k : Addr) (v : Int) : AddrMap :=
  (k, v) :: m.filter (fun p => ¬ p.1 = k)

/-- HAMT `Delete`: remove the binding of key `k`; an error (`none`) if the
key is absent. -/
def mapDelete (m : AddrMap) (k : Addr) : Option AddrMap :=
  if (mapGet m k).isSome then some (m.filter (fun p => ¬ p.1 = k)) else none

/-- Modelled from the spec: `ConstructState` (verified_registry_state.go,
outside src/) stores the resolved id root key and two empty map roots. -/
def ConstructState (idAddr : Addr) : State :=
  { rootKey := idAddr, verifiers := [], verifiedClients := [] }

/-- `Actor.Constructor`: caller must be the system actor; the root key must
resolve to an id address (else `IllegalArgument`, via `RequireParam`). -/
def Constructor (resolve : RawAddr → Option Addr) (caller : Addr)
    (rootKey : RawAddr) : Except ExitCode State :=
  if caller ≠ SystemActorAddr then .error .sysErrForbidden
  else match resolve rootKey with
    | none => .error .illegalArgument
    | some idAddr => .ok (ConstructState idAddr)

/-- Parameters of `AddVerifier`. -/
structure AddVerifierParams where
  Address : RawAddr
  Allowance : DataCap
deriving DecidableEq, Repr

/-- Parameters of `AddVerifiedClient`. -/
structure AddVerifiedClientParams where
  Address : RawAddr
  Allowance : DataCap
deriving DecidableEq, Repr

/-- Parameters of `UseBytes`. -/
structure UseBytesParams where
  Address : RawAddr
  DealSize : Int
deriving DecidableEq, Repr

/-- Parameters of `RestoreBytes`. -/
structure RestoreBytesParams where
  Address : RawAddr
  DealSize : Int
deriving DecidableEq, Repr

/-- `Actor.AddVerifier`, in source order: allowance minimum check
(`IllegalArgument`), address resolution (`IllegalState`), caller
authorization against the root key, root-key rejection, verified-client
collision check, then `Verifiers[v] := allowance` (an overwriting `Put`). -/
def AddVerifier (MinVerifiedDealSize : Int) (resolve : RawAddr → Option Addr)
    (caller : Addr) (st : State) (params : AddVerifierParams) :
    Except ExitCode State :=
  if params.Allowance < MinVerifiedDealSize then .error .illegalArgument
  else match resolve params.Address with
    | none => .error .illegalState
    | some verifier =>
      if caller ≠ st.rootKey then .error .sysErrForbidden
      else if verifier = st.rootKey then .error .illegalArgument
      else if (mapGet st.verifiedClients verifier).isSome then
        .error .illegalArgument
      else .ok { st with verifiers := mapPut st.verifiers verifier params.Allowance }

/-- `Actor.RemoveVerifier`: address resolution (`IllegalState`), caller
authorization against the root key, then `Delete` in `Verifiers`
(`IllegalState` if absent). -/
def RemoveVerifier (resolve : RawAddr → Option Addr) (caller : Addr)
    (st : State) (verifierAddr : RawAddr) : Except ExitCode State :=
  match resolve verifierAddr with
  | none => .error .illegalState
  | some verifier =>
    if caller ≠ st.rootKey then .error .sysErrForbidden
    else match mapDelete st.verifiers verifier with
      | none => .error .illegalState
      | some m => .ok { st with verifiers := m }

/-- `Actor.AddVerifiedClient`, in source order: any caller accepted;
allowance minimum check; client resolution; root-key rejection; caller
looked up in `Verifiers` (`NotFound` if absent); client must not be a
verifier; `verifierCap ≥ allowance`; the verifier is debited; the client
must be absent from `VerifiedClients`; the client is credited. -/
def AddVerifiedClient (MinVerifiedDealSize : Int)
    (resolve : RawAddr → Option Addr) (caller : Addr) (st : State)
    (params : AddVerifiedClientParams) : Except ExitCode State :=
  if params.Allowance < MinVerifiedDealSize then .error .illegalArgument
  else match resolve params.Address with
    | none => .error .illegalState
    | some client =>
      if st.rootKey = client then .error .illegalArgument
      else match mapGet st.verifiers caller with
        | none => .error .notFound
        | some verifierCap =>
          if (mapGet st.verifiers client).isSome then .error .illegalArgument
          else if verifierCap < params.Allowance then .error .illegalArgument
          else
            let newVerifierCap := verifierCap - params.Allowance
            let verifiers1 := mapPut st.verifiers caller newVerifierCap
            if (mapGet st.verifiedClients client).isSome then
              .error .illegalArgument
            else .ok { st with
              verifiers := verifiers1,
              verifiedClients := mapPut st.verifiedClients client params.Allowance }

/-- `Actor.UseBytes`, in source order: caller must be the storage-market
actor; client resolution (`IllegalState`); deal-size minimum check
(`IllegalArgument`); client looked up in `VerifiedClients` (`NotFound`);
`Assert(cap ≥ 0)`; `dealSize ≤ cap`; then the entry is deleted when the
residual cap falls below the minimum, otherwise updated. -/
def UseBytes (MinVerifiedDealSize : Int) (resolve : RawAddr → Option Addr)
    (caller : Addr) (st : State) (params : UseBytesParams) :
    Except ExitCode State :=
  if caller ≠ StorageMarketActorAddr then .error .sysErrForbidden
  else match resolve params.Address with
    | none => .error .illegalState
    | some client =>
      if params.DealSize < MinVerifiedDealSize then .error .illegalArgument
      else match mapGet st.verifiedClients client with
        | none => .error .notFound
        | some vcCap =>
          if vcCap < 0 then .error .assertViolation
          else if vcCap < params.DealSize then .error .illegalArgument
          else
            let newVcCap := vcCap - params.DealSize
            if newVcCap < MinVerifiedDealSize then
              match mapDelete st.verifiedClients client with
              | none => .error .illegalState
              | some m => .ok { st with verifiedClients := m }
            else .ok { st with
              verifiedClients := mapPut st.verifiedClients client newVcCap }

/-- `Actor.RestoreBytes`, in source order: caller must be the storage-market
actor; deal-size minimum check (`IllegalArgument`); client resolution
(`IllegalState`); root-key rejection; client must not be a verifier; then
the cap (0 if the entry is absent) is increased by the deal size. -/
def RestoreBytes (MinVerifiedDealSize : Int) (resolve : RawAddr → Option Addr)
    (caller : Addr) (st : State) (params : RestoreBytesParams) :
    Except ExitCode State :=
  if caller ≠ StorageMarketActorAddr then .error .sysErrForbidden
  else if params.DealSize < MinVerifiedDealSize then .error .illegalArgument
  else match resolve params.Address with
    | none => .error .illegalState
    | some client =>
      if st.rootKey = client then .error .illegalArgument
      else if (mapGet st.verifiers client).isSome then .error .illegalArgument
      else
        let vcCap := (mapGet st.verifiedClients client).getD 0
        .ok { st with
          verifiedClients := mapPut st.verifiedClients client (vcCap + params.DealSize) }

/-- One invocation of a post-construction actor method: the resolution
table in force, the (already id-form) immediate caller, and the params. -/
inductive Call where
  | addVerifier (resolve : RawAddr → Option Addr) (caller : Addr)
      (params : AddVerifierParams)
  | removeVerifier (resolve : RawAddr → Option Addr) (caller : Addr)
      (verifierAddr : RawAddr)
  | addVerifiedClient (resolve : RawAddr → Option Addr) (caller : Addr)
      (params : AddVerifiedClientParams)
  | useBytes (resolve : RawAddr → Option Addr) (caller : Addr)
      (params : UseBytesParams)
  | restoreBytes (resolve : RawAddr → Option Addr) (caller : Addr)
      (params : RestoreBytesParams)

/-- Dispatch one call to the corresponding method. -/
def applyCall (MinVerifiedDealSize : Int) (st : State) : Call → Except ExitCode State
  | .addVerifier resolve caller params =>
      AddVerifier MinVerifiedDealSize resolve caller st params
  | .removeVerifier resolve caller verifierAddr =>
      RemoveVerifier resolve caller st verifierAddr
  | .addVerifiedClient resolve caller params =>
      AddVerifiedClient MinVerifiedDealSize resolve caller st params
  | .useBytes resolve caller params =>
      UseBytes MinVerifiedDealSize resolve caller st params
  | .restoreBytes resolve caller params =>
      RestoreBytes MinVerifiedDealSize resolve caller st params

/-- The committed state after one invocation: an aborting call commits
nothing (transactions are all-or-nothing). -/
def step (MinVerifiedDealSize : Int) (st : State) (c : Call) : State :=
  match applyCall MinVerifiedDealSize st c with
  | .ok st1 => st1
  | .error _ => st

/-- The committed state after `Constructor` (with resolved root key
`rootKey`) followed by any sequence of invocations. -/
def reach (MinVerifiedDealSize : Int) (rootKey : Addr) (calls : List Call) : State :=
  List.foldl (step MinVerifiedDealSize) (ConstructState rootKey) calls

/-- Key-set invariant: the two maps have disjoint key sets, and the root
key is a key of neither. -/
def KeyInv (st : State) : Prop :=
  (∀ p ∈ st.verifiers, ∀ q ∈ st.verifiedClients, p.1 ≠ q.1) ∧
  (∀ p ∈ st.verifiers, p.1 ≠ st.rootKey) ∧
  (∀ q ∈ st.verifiedClients, q.1 ≠ st.rootKey)

/-- Value invariant: verifier caps are non-negative and client caps are at
least `MinVerifiedDealSize`. -/
def ValInv (MinVerifiedDealSize : Int) (st : State) : Prop :=
  (∀ p ∈ st.verifiers, 0 ≤ p.2) ∧
  (∀ q ∈ st.verifiedClients, MinVerifiedDealSize ≤ q.2)

end VerifReg

namespace Ipld

/-- A raw block: its byte payload (`RawData` in the source). -/
structure Block where
  RawData : List Nat
deriving DecidableEq, Repr

/-- `MetricsBlockStore`: the four metric counters of the wrapper; the
underlying store is passed to `Get`/`Put` as a function. -/
structure MetricsBlockStore where
  Writes : Nat
  WriteBytes : Nat
  Reads : Nat
  ReadBytes : Nat
deriving DecidableEq, Repr

/-- `MetricsBlockStore.Get`: count the read, delegate, and accumulate the
read bytes only when the underlying `Get` succeeds. -/
def MetricsBlockStore.Get (bs : Nat → Option Block) (ms : MetricsBlockStore)
    (c : Nat) : MetricsBlockStore × Option Block :=
  let ms1 := { ms with Reads := ms.Reads + 1 }
  match bs c with
  | none => (ms1, none)
  | some blk =>
      ({ ms1 with ReadBytes := ms1.ReadBytes + blk.RawData.length }, some blk)

/-- `MetricsBlockStore.Put`: count the write and accumulate the written
bytes unconditionally, then delegate to the underlying `Put`. -/
def MetricsBlockStore.Put (bs : Block → Option Unit) (ms : MetricsBlockStore)
    (b : Block) : MetricsBlockStore × Option Unit :=
  ({ ms with Writes := ms.Writes + 1,
             WriteBytes := ms.WriteBytes + b.RawData.length }, bs b)

/-- `MetricsBlockStore.ReadCount` accessor. -/
def MetricsBlockStore.ReadCount (ms : MetricsBlockStore) : Nat := ms.Reads

/-- `MetricsBlockStore.WriteCount` accessor. -/
def MetricsBlockStore.WriteCount (ms : MetricsBlockStore) : Nat := ms.Writes

/-- `MetricsBlockStore.ReadSize` accessor. -/
def MetricsBlockStore.ReadSize (ms : MetricsBlockStore) : Nat := ms.ReadBytes

/-- `MetricsBlockStore.WriteSize` accessor. -/
def MetricsBlockStore.WriteSize (ms : MetricsBlockStore) : Nat := ms.WriteBytes

end Ipld

namespace VerifReg

theorem mapGet_mapPut_self (m : AddrMap) (k : Addr) (v : Int) :
    mapGet (mapPut m k v) k = some v := by
  simp [mapPut, mapGet]

theorem mapGet_filter_ne (m : AddrMap) (k k' : Addr) (h : k' ≠ k) :
    mapGet (m.filter (fun p => ¬ p.1 = k)) k' = mapGet m k' := by
  induction m with
  | nil => rfl
  | cons p rest ih =>
    obtain ⟨k1, v1⟩ := p
    simp only [decide_not] at ih
    by_cases hp : k1 = k
    · subst hp
      simp [List.filter_cons, mapGet, Ne.symm h, decide_not, ih]
    · by_cases hk : k1 = k'
      · subst hk
        simp [List.filter_cons, mapGet, hp, decide_not]
      · simp [List.filter_cons, mapGet, hp, hk, decide_not, ih]

theorem mapGet_mapPut_ne (m : AddrMap) (k k' : Addr) (v : Int) (h : k' ≠ k) :
    mapGet (mapPut m k v) k' = mapGet m k' := by
  simp only [mapPut, mapGet, if_neg (Ne.symm h)]
  exact mapGet_filter_ne m k k' h

theorem mem_mapPut {m : AddrMap} {k : Addr} {v : Int} {p : Addr × Int}
    (h : p ∈ mapPut m k v) : p = (k, v) ∨ (p ∈ m ∧ ¬ p.1 = k) := by
  rcases List.mem_cons.mp h with h1 | h1
  · exact Or.inl h1
  · rcases List.mem_filter.mp h1 with ⟨hm, hk⟩
    exact Or.inr ⟨hm, by simpa using hk⟩

theorem mapGet_some_mem {m : AddrMap} {k : Addr} {v : Int}
    (h : mapGet m k = some v) : (k, v) ∈ m := by
  induction m with
  | nil => cases h
  | cons p rest ih =>
    obtain ⟨k1, v1⟩ := p
    by_cases hk : k1 = k
    · subst hk
      have hv : v1 = v := by simpa [mapGet] using h
      subst hv
      exact List.mem_cons_self _ _
    · simp only [mapGet, if_neg hk] at h
      exact List.mem_cons_of_mem _ (ih h)

theorem mapGet_eq_none_iff {m : AddrMap} {k : Addr} :
    mapGet m k = none ↔ ∀ v : Int, (k, v) ∉ m := by
  induction m with
  | nil => simp [mapGet]
  | cons p rest ih =>
    obtain ⟨k1, v1⟩ := p
    by_cases hk : k1 = k
    · subst hk
      constructor
      · intro h
        rw [show mapGet ((k1, v1) :: rest) k1 = some v1 from by simp [mapGet]] at h
        cases h
      · intro h
        exact absurd (List.mem_cons_self _ _) (h v1)
    · simp only [mapGet, if_neg hk, ih, List.mem_cons]
      constructor
      · intro h v hv
        rcases hv with hv | hv
        · exact hk (congrArg Prod.fst hv).symm
        · exact h v hv
      · intro h v hv
        exact h v (Or.inr hv)

theorem mapGet_filter_self (m : AddrMap) (k : Addr) :
    mapGet (m.filter (fun p => ¬ p.1 = k)) k = none := by
  refine mapGet_eq_none_iff.mpr ?_
  intro v hv
  rcases List.mem_filter.mp hv with ⟨_, hk⟩
  simp at hk

theorem mapDelete_eq {m m' : AddrMap} {k : Addr}
    (h : mapDelete m k = some m') : m' = m.filter (fun p => ¬ p.1 = k) := by
  unfold mapDelete at h
  split at h
  · exact (Option.some.inj h).symm
  · cases h

theorem mem_of_mem_mapDelete {m m' : AddrMap} {k : Addr} {p : Addr × Int}
    (h : mapDelete m k = some m') (hp : p ∈ m') : p ∈ m := by
  rw [mapDelete_eq h] at hp
  exact List.mem_of_mem_filter hp

theorem mapGet_mapDelete_self {m m' : AddrMap} {k : Addr}
    (h : mapDelete m k = some m') : mapGet m' k = none := by
  rw [mapDelete_eq h]
  exact mapGet_filter_self m k

theorem mapGet_mapDelete_ne {m m' : AddrMap} {k k' : Addr}
    (h : mapDelete m k = some m') (hk : k' ≠ k) :
    mapGet m' k' = mapGet m k' := by
  rw [mapDelete_eq h]
  exact mapGet_filter_ne m k k' hk

theorem AddVerifier_ok_inv {M : Int} {resolve : RawAddr → Option Addr}
    {caller : Addr} {st st1 : State} {params : AddVerifierParams}
    (hok : AddVerifier M resolve caller st params = .ok st1) :
    ∃ verifier, resolve params.Address = some verifier ∧
      ¬ params.Allowance < M ∧ caller = st.rootKey ∧ ¬ verifier = st.rootKey ∧
      mapGet st.verifiedClients verifier = none ∧
      st1 = { st with verifiers := mapPut st.verifiers verifier params.Allowance } := by
  unfold AddVerifier at hok
  split at hok
  · cases hok
  · rename_i hmin
    split at hok
    · cases hok
    · rename_i verifier hres
      split at hok
      · cases hok
      · rename_i hcaller
        split at hok
        · cases hok
        · rename_i hroot
          split at hok
          · cases hok
          · rename_i hclient
            exact ⟨verifier, hres, hmin, not_not.mp hcaller, hroot,
              Option.not_isSome_iff_eq_none.mp hclient,
              (Except.ok.inj hok).symm⟩

theorem Constructor_ok_inv {resolve : RawAddr → Option Addr} {caller : Addr}
    {rootKey : RawAddr} {st1 : State}
    (hok : Constructor resolve caller rootKey = .ok st1) :
    ∃ idAddr, resolve rootKey = some idAddr ∧ caller = SystemActorAddr ∧
      st1 = ConstructState idAddr := by
  unfold Constructor at hok
  split at hok
  · cases hok
  · rename_i hcaller
    split at hok
    · cases hok
    · rename_i idAddr hres
      exact ⟨idAddr, hres, not_not.mp hcaller, (Except.ok.inj hok).symm⟩

theorem RemoveVerifier_ok_inv {resolve : RawAddr → Option Addr}
    {caller : Addr} {st st1 : State} {verifierAddr : RawAddr}
    (hok : RemoveVerifier resolve caller st verifierAddr = .ok st1) :
    ∃ verifier m, resolve verifierAddr = some verifier ∧ caller = st.rootKey ∧
      mapDelete st.verifiers verifier = some m ∧
      st1 = { st with verifiers := m } := by
  unfold RemoveVerifier at hok
  split at hok
  · cases hok
  · rename_i verifier hres
    split at hok
    · cases hok
    · rename_i hcaller
      split at hok
      · cases hok
      · rename_i m hdel
        exact ⟨verifier, m, hres, not_not.mp hcaller, hdel,
          (Except.ok.inj hok).symm⟩

theorem AddVerifiedClient_ok_inv {M : Int} {resolve : RawAddr → Option Addr}
    {caller : Addr} {st st1 : State} {params : AddVerifiedClientParams}
    (hok : AddVerifiedClient M resolve caller st params = .ok st1) :
    ∃ client verifierCap, resolve params.Address = some client ∧
      ¬ params.Allowance < M ∧ ¬ st.rootKey = client ∧
      mapGet st.verifiers caller = some verifierCap ∧
      mapGet st.verifiers client = none ∧
      ¬ verifierCap < params.Allowance ∧
      mapGet st.verifiedClients client = none ∧
      st1 = { st with
        verifiers := mapPut st.verifiers caller (verifierCap - params.Allowance),
        verifiedClients := mapPut st.verifiedClients client params.Allowance } := by
  unfold AddVerifiedClient at hok
  split at hok
  · cases hok
  · rename_i hmin
    split at hok
    · cases hok
    · rename_i client hres
      split at hok
      · cases hok
      · rename_i hroot
        split at hok
        · cases hok
        · rename_i verifierCap hcap
          split at hok
          · cases hok
          · rename_i hclientVer
            split at hok
            · cases hok
            · rename_i hcapGe
              split at hok
              · cases hok
              · rename_i hclientAbsent
                exact ⟨client, verifierCap, hres, hmin, hroot, hcap,
                  Option.not_isSome_iff_eq_none.mp hclientVer, hcapGe,
                  Option.not_isSome_iff_eq_none.mp hclientAbsent,
                  (Except.ok.inj hok).symm⟩

theorem UseBytes_ok_inv {M : Int} {resolve : RawAddr → Option Addr}
    {caller : Addr} {st st1 : State} {params : UseBytesParams}
    (hok : UseBytes M resolve caller st params = .ok st1) :
    ∃ client vcCap, caller = StorageMarketActorAddr ∧
      resolve params.Address = some client ∧ ¬ params.DealSize < M ∧
      mapGet st.verifiedClients client = some vcCap ∧
      ¬ vcCap < 0 ∧ ¬ vcCap < params.DealSize ∧
      ((vcCap - params.DealSize < M ∧
        ∃ m, mapDelete st.verifiedClients client = some m ∧
          st1 = { st with verifiedClients := m }) ∨
       (¬ vcCap - params.DealSize < M ∧
        st1 = { st with
                verifiedClients := mapPut st.verifiedClients client
                  (vcCap - params.DealSize) })) := by
  unfold UseBytes at hok
  split at hok
  · cases hok
  · rename_i hcaller
    split at hok
    · cases hok
    · rename_i client hres
      split at hok
      · cases hok
      · rename_i hmin
        split at hok
        · cases hok
        · rename_i vcCap hcap
          split at hok
          · cases hok
          · rename_i hnonneg
            split at hok
            · cases hok
            · rename_i hle
              dsimp only at hok
              split at hok
              · rename_i hsmall
                split at hok
                · cases hok
                · rename_i m hdel
                  exact ⟨client, vcCap, not_not.mp hcaller, hres, hmin, hcap,
                    hnonneg, hle,
                    Or.inl ⟨hsmall, m, hdel, (Except.ok.inj hok).symm⟩⟩
              · rename_i hbig
                exact ⟨client, vcCap, not_not.mp hcaller, hres, hmin, hcap,
                  hnonneg, hle, Or.inr ⟨hbig, (Except.ok.inj hok).symm⟩⟩

theorem RestoreBytes_ok_inv {M : Int} {resolve : RawAddr → Option Addr}
    {caller : Addr} {st st1 : State} {params : RestoreBytesParams}
    (hok : RestoreBytes M resolve caller st params = .ok st1) :
    ∃ client, caller = StorageMarketActorAddr ∧ ¬ params.DealSize < M ∧
      resolve params.Address = some client ∧ ¬ st.rootKey = client ∧
      mapGet st.verifiers client = none ∧
      st1 = { st with
              verifiedClients := mapPut st.verifiedClients client
                ((mapGet st.verifiedClients client).getD 0 + params.DealSize) } := by
  unfold RestoreBytes at hok
  split at hok
  · cases hok
  · rename_i hcaller
    split at hok
    · cases hok
    · rename_i hmin
      split at hok
      · cases hok
      · rename_i client hres
        split at hok
        · cases hok
        · rename_i hroot
          split at hok
          · cases hok
          · rename_i hclientVer
            exact ⟨client, not_not.mp hcaller, hmin, hres, hroot,
              Option.not_isSome_iff_eq_none.mp hclientVer,
              (Except.ok.inj hok).symm⟩

theorem key_ne_of_mapGet_none {m : AddrMap} {k : Addr} (h : mapGet m k = none)
    {q : Addr × Int} (hq : q ∈ m) : q.1 ≠ k := by
  intro hk
  apply mapGet_eq_none_iff.mp h q.2
  have hq1 : (k, q.2) = q := by
    obtain ⟨a, b⟩ := q
    simp only at hk
    simp [hk]
  rw [hq1]
  exact hq

theorem mapGet_isSome_mem {m : AddrMap} {k : Addr}
    (h : (mapGet m k).isSome) : ∃ v, (k, v) ∈ m := by
  obtain ⟨v, hv⟩ := Option.isSome_iff_exists.mp h
  exact ⟨v, mapGet_some_mem hv⟩

theorem KeyInv_step {M : Int} {st : State} (c : Call) (h : KeyInv st) :
    KeyInv (step M st c) := by
  obtain ⟨hdisj, hverRoot, hcliRoot⟩ := h
  cases c with
  | addVerifier resolve caller params =>
    unfold step applyCall
    split
    · rename_i st1 happly
      obtain ⟨verifier, hres, hmin, hcaller, hroot, hclient, hst1⟩ :=
        AddVerifier_ok_inv happly
      subst hst1
      refine ⟨?_, ?_, hcliRoot⟩
      · intro p hp q hq
        rcases mem_mapPut hp with hp1 | ⟨hp1, _⟩
        · subst hp1
          exact (key_ne_of_mapGet_none hclient hq).symm
        · exact hdisj p hp1 q hq
      · intro p hp
        rcases mem_mapPut hp with hp1 | ⟨hp1, _⟩
        · subst hp1
          exact hroot
        · exact hverRoot p hp1
    · exact ⟨hdisj, hverRoot, hcliRoot⟩
  | removeVerifier resolve caller verifierAddr =>
    unfold step applyCall
    split
    · rename_i st1 happly
      obtain ⟨verifier, m, hres, hcaller, hdel, hst1⟩ :=
        RemoveVerifier_ok_inv happly
      subst hst1
      exact ⟨fun p hp => hdisj p (mem_of_mem_mapDelete hdel hp),
        fun p hp => hverRoot p (mem_of_mem_mapDelete hdel hp), hcliRoot⟩
    · exact ⟨hdisj, hverRoot, hcliRoot⟩
  | addVerifiedClient resolve caller params =>
    unfold step applyCall
    split
    · rename_i st1 happly
      obtain ⟨client, verifierCap, hres, hmin, hroot, hcap, hclientVer,
        hcapGe, hclientAbs, hst1⟩ := AddVerifiedClient_ok_inv happly
      subst hst1
      have hcallerMem : (caller, verifierCap) ∈ st.verifiers :=
        mapGet_some_mem hcap
      refine ⟨?_, ?_, ?_⟩
      · intro p hp q hq
        rcases mem_mapPut hp with hp1 | ⟨hp1, _⟩ <;>
          rcases mem_mapPut hq with hq1 | ⟨hq1, _⟩
        · subst hp1; subst hq1
          show caller ≠ client
          exact key_ne_of_mapGet_none hclientVer hcallerMem
        · subst hp1
          exact hdisj (caller, verifierCap) hcallerMem q hq1
        · subst hq1
          exact key_ne_of_mapGet_none hclientVer hp1
        · exact hdisj p hp1 q hq1
      · intro p hp
        rcases mem_mapPut hp with hp1 | ⟨hp1, _⟩
        · subst hp1
          exact hverRoot (caller, verifierCap) hcallerMem
        · exact hverRoot p hp1
      · intro q hq
        rcases mem_mapPut hq with hq1 | ⟨hq1, _⟩
        · subst hq1
          exact fun hk => hroot hk.symm
        · exact hcliRoot q hq1
    · exact ⟨hdisj, hverRoot, hcliRoot⟩
  | useBytes resolve caller params =>
    unfold step applyCall
    split
    · rename_i st1 happly
      obtain ⟨client, vcCap, hcaller, hres, hmin, hcap, hnonneg, hle, hcase⟩ :=
        UseBytes_ok_inv happly
      have hclientMem : (client, vcCap) ∈ st.verifiedClients :=
        mapGet_some_mem hcap
      rcases hcase with ⟨hsmall, m, hdel, hst1⟩ | ⟨hbig, hst1⟩ <;> subst hst1
      · exact ⟨fun p hp q hq => hdisj p hp q (mem_of_mem_mapDelete hdel hq),
          hverRoot, fun q hq => hcliRoot q (mem_of_mem_mapDelete hdel hq)⟩
      · refine ⟨?_, hverRoot, ?_⟩
        · intro p hp q hq
          rcases mem_mapPut hq with hq1 | ⟨hq1, _⟩
          · subst hq1
            exact hdisj p hp (client, vcCap) hclientMem
          · exact hdisj p hp q hq1
        · intro q hq
          rcases mem_mapPut hq with hq1 | ⟨hq1, _⟩
          · subst hq1
            exact hcliRoot (client, vcCap) hclientMem
          · exact hcliRoot q hq1
    · exact ⟨hdisj, hverRoot, hcliRoot⟩
  | restoreBytes resolve caller params =>
    unfold step applyCall
    split
    · rename_i st1 happly
      obtain ⟨client, hcaller, hmin, hres, hroot, hclientVer, hst1⟩ :=
        RestoreBytes_ok_inv happly
      subst hst1
      refine ⟨?_, hverRoot, ?_⟩
      · intro p hp q hq
        rcases mem_mapPut hq with hq1 | ⟨hq1, _⟩
        · subst hq1
          exact key_ne_of_mapGet_none hclientVer hp
        · exact hdisj p hp q hq1
      · intro q hq
        rcases mem_mapPut hq with hq1 | ⟨hq1, _⟩
        · subst hq1
          exact fun hk => hroot hk.symm
        · exact hcliRoot q hq1
    · exact ⟨hdisj, hverRoot, hcliRoot⟩

theorem ValInv_step {M : Int} (hM : 0 ≤ M) {st : State} (c : Call)
    (h : ValInv M st) : ValInv M (step M st c) := by
  obtain ⟨hver, hcli⟩ := h
  cases c with
  | addVerifier resolve caller params =>
    unfold step applyCall
    split
    · rename_i st1 happly
      obtain ⟨verifier, hres, hmin, hcaller, hroot, hclient, hst1⟩ :=
        AddVerifier_ok_inv happly
      subst hst1
      refine ⟨?_, hcli⟩
      intro p hp
      rcases mem_mapPut hp with hp1 | ⟨hp1, _⟩
      · subst hp1
        show 0 ≤ params.Allowance
        exact le_trans hM (not_lt.mp hmin)
      · exact hver p hp1
    · exact ⟨hver, hcli⟩
  | removeVerifier resolve caller verifierAddr =>
    unfold step applyCall
    split
    · rename_i st1 happly
      obtain ⟨verifier, m, hres, hcaller, hdel, hst1⟩ :=
        RemoveVerifier_ok_inv happly
      subst hst1
      exact ⟨fun p hp => hver p (mem_of_mem_mapDelete hdel hp), hcli⟩
    · exact ⟨hver, hcli⟩
  | addVerifiedClient resolve caller params =>
    unfold step applyCall
    split
    · rename_i st1 happly
      obtain ⟨client, verifierCap, hres, hmin, hroot, hcap, hclientVer,
        hcapGe, hclientAbs, hst1⟩ := AddVerifiedClient_ok_inv happly
      subst hst1
      refine ⟨?_, ?_⟩
      · intro p hp
        rcases mem_mapPut hp with hp1 | ⟨hp1, _⟩
        · subst hp1
          show 0 ≤ verifierCap - params.Allowance
          exact sub_nonneg.mpr (not_lt.mp hcapGe)
        · exact hver p hp1
      · intro q hq
        rcases mem_mapPut hq with hq1 | ⟨hq1, _⟩
        · subst hq1
          exact not_lt.mp hmin
        · exact hcli q hq1
    · exact ⟨hver, hcli⟩
  | useBytes resolve caller params =>
    unfold step applyCall
    split
    · rename_i st1 happly
      obtain ⟨client, vcCap, hcaller, hres, hmin, hcap, hnonneg, hle, hcase⟩ :=
        UseBytes_ok_inv happly
      rcases hcase with ⟨hsmall, m, hdel, hst1⟩ | ⟨hbig, hst1⟩ <;> subst hst1
      · exact ⟨hver, fun q hq => hcli q (mem_of_mem_mapDelete hdel hq)⟩
      · refine ⟨hver, ?_⟩
        intro q hq
        rcases mem_mapPut hq with hq1 | ⟨hq1, _⟩
        · subst hq1
          exact not_lt.mp hbig
        · exact hcli q hq1
    · exact ⟨hver, hcli⟩
  | restoreBytes resolve caller params =>
    unfold step applyCall
    split
    · rename_i st1 happly
      obtain ⟨client, hcaller, hmin, hres, hroot, hclientVer, hst1⟩ :=
        RestoreBytes_ok_inv happly
      subst hst1
      refine ⟨hver, ?_⟩
      intro q hq
      rcases mem_mapPut hq with hq1 | ⟨hq1, _⟩
      · subst hq1
        show M ≤ (mapGet st.verifiedClients client).getD 0 + params.DealSize
        have hd : M ≤ params.DealSize := not_lt.mp hmin
        have hg : 0 ≤ (mapGet st.verifiedClients client).getD 0 := by
          cases hget : mapGet st.verifiedClients client with
          | none => simp
          | some v =>
            have hv : M ≤ v := hcli (client, v) (mapGet_some_mem hget)
            simpa using le_trans hM hv
        linarith
      · exact hcli q hq1
    · exact ⟨hver, hcli⟩

theorem rootKey_step {M : Int} {st : State} (c : Call) :
    (step M st c).rootKey = st.rootKey := by
  cases c with
  | addVerifier resolve caller params =>
    unfold step applyCall
    split
    · rename_i st1 happly
      obtain ⟨_, _, _, _, _, _, hst1⟩ := AddVerifier_ok_inv happly
      subst hst1; rfl
    · rfl
  | removeVerifier resolve caller verifierAddr =>
    unfold step applyCall
    split
    · rename_i st1 happly
      obtain ⟨_, _, _, _, _, hst1⟩ := RemoveVerifier_ok_inv happly
      subst hst1; rfl
    · rfl
  | addVerifiedClient resolve caller params =>
    unfold step applyCall
    split
    · rename_i st1 happly
      obtain ⟨_, _, _, _, _, _, _, _, _, hst1⟩ := AddVerifiedClient_ok_inv happly
      subst hst1; rfl
    · rfl
  | useBytes resolve caller params =>
    unfold step applyCall
    split
    · rename_i st1 happly
      obtain ⟨_, _, _, _, _, _, _, _, hcase⟩ := UseBytes_ok_inv happly
      rcases hcase with ⟨_, _, _, hst1⟩ | ⟨_, hst1⟩ <;> (subst hst1; rfl)
    · rfl
  | restoreBytes resolve caller params =>
    unfold step applyCall
    split
    · rename_i st1 happly
      obtain ⟨_, _, _, _, _, _, hst1⟩ := RestoreBytes_ok_inv happly
      subst hst1; rfl
    · rfl

theorem KeyInv_foldl {M : Int} {st : State} (calls : List Call) (h : KeyInv st) :
    KeyInv (List.foldl (step M) st calls) := by
  induction calls generalizing st with
  | nil => exact h
  | cons c cs ih => exact ih (KeyInv_step c h)

theorem ValInv_foldl {M : Int} (hM : 0 ≤ M) {st : State} (calls : List Call)
    (h : ValInv M st) : ValInv M (List.foldl (step M) st calls) := by
  induction calls generalizing st with
  | nil => exact h
  | cons c cs ih => exact ih (ValInv_step hM c h)

theorem rootKey_foldl {M : Int} {st : State} (calls : List Call) :
    (List.foldl (step M) st calls).rootKey = st.rootKey := by
  induction calls generalizing st with
  | nil => rfl
  | cons c cs ih => exact (ih).trans (rootKey_step c)

theorem KeyInv_ConstructState (rk : Addr) : KeyInv (ConstructState rk) := by
  refine ⟨?_, ?_, ?_⟩ <;> intro p hp <;> cases hp

theorem ValInv_ConstructState (M : Int) (rk : Addr) :
    ValInv M (ConstructState rk) := by
  refine ⟨?_, ?_⟩ <;> intro p hp <;> cases hp

theorem KeyInv_reach (M : Int) (rk : Addr) (calls : List Call) :
    KeyInv (reach M rk calls) :=
  KeyInv_foldl calls (KeyInv_ConstructState rk)

theorem ValInv_reach {M : Int} (hM : 0 ≤ M) (rk : Addr) (calls : List Call) :
    ValInv M (reach M rk calls) :=
  ValInv_foldl hM calls (ValInv_ConstructState M rk)

theorem rootKey_reach (M : Int) (rk : Addr) (calls : List Call) :
    (reach M rk calls).rootKey = rk :=
  rootKey_foldl calls

theorem UseBytes_error_of_resolve_none {M : Int} {resolve : RawAddr → Option Addr}
    {st : State} {params : UseBytesParams}
    (h : resolve params.Address = none) :
    UseBytes M resolve StorageMarketActorAddr st params = .error .illegalState := by
  simp [UseBytes, h]

theorem UseBytes_error_of_size_below {M : Int} {resolve : RawAddr → Option Addr}
    {st : State} {params : UseBytesParams} {client : Addr}
    (hres : resolve params.Address = some client)
    (hsize : params.DealSize < M) :
    UseBytes M resolve StorageMarketActorAddr st params = .error .illegalArgument := by
  simp [UseBytes, hres, hsize]

theorem AddVerifier_error_of_below_min {M : Int} {resolve : RawAddr → Option Addr}
    {caller : Addr} {st : State} {params : AddVerifierParams}
    (h : params.Allowance < M) :
    AddVerifier M resolve caller st params = .error .illegalArgument := by
  simp [AddVerifier, h]

theorem AddVerifier_error_of_resolve_none {M : Int} {resolve : RawAddr → Option Addr}
    {caller : Addr} {st : State} {params : AddVerifierParams}
    (hmin : ¬ params.Allowance < M) (h : resolve params.Address = none) :
    AddVerifier M resolve caller st params = .error .illegalState := by
  simp [AddVerifier, hmin, h]

theorem AddVerifier_error_of_bad_caller {M : Int} {resolve : RawAddr → Option Addr}
    {caller : Addr} {st : State} {params : AddVerifierParams} {v : Addr}
    (hmin : ¬ params.Allowance < M) (hres : resolve params.Address = some v)
    (hc : caller ≠ st.rootKey) :
    AddVerifier M resolve caller st params = .error .sysErrForbidden := by
  simp [AddVerifier, hmin, hres, hc]

theorem AddVerifier_error_of_root {M : Int} {resolve : RawAddr → Option Addr}
    {st : State} {params : AddVerifierParams}
    (hmin : ¬ params.Allowance < M)
    (hres : resolve params.Address = some st.rootKey) :
    AddVerifier M resolve st.rootKey st params = .error .illegalArgument := by
  simp [AddVerifier, hmin, hres]

theorem AddVerifiedClient_error_of_root {M : Int}
    {resolve : RawAddr → Option Addr} {caller : Addr} {st : State}
    {params : AddVerifiedClientParams}
    (hmin : ¬ params.Allowance < M)
    (hres : resolve params.Address = some st.rootKey) :
    AddVerifiedClient M resolve caller st params = .error .illegalArgument := by
  simp [AddVerifiedClient, hmin, hres]

theorem RestoreBytes_error_of_root {M : Int} {resolve : RawAddr → Option Addr}
    {st : State} {params : RestoreBytesParams}
    (hmin : ¬ params.DealSize < M)
    (hres : resolve params.Address = some st.rootKey) :
    RestoreBytes M resolve StorageMarketActorAddr st params = .error .illegalArgument := by
  simp [RestoreBytes, hmin, hres]

theorem UseBytes_no_assert {M : Int} {resolve : RawAddr → Option Addr}
    {caller : Addr} {st : State} {params : UseBytesParams}
    (h : ∀ q ∈ st.verifiedClients, 0 ≤ q.2) :
    UseBytes M resolve caller st params ≠ .error .assertViolation := by
  unfold UseBytes
  split
  · simp
  · split
    · simp
    · rename_i client hres
      split
      · simp
      · split
        · simp
        · rename_i vcCap hcap
          split
          · rename_i hneg
            exact absurd (h (client, vcCap) (mapGet_some_mem hcap))
              (not_le.mpr hneg)
          · split
            · simp
            · dsimp only
              split
              · split <;> simp
              · simp

/-- Claim C1: after `Constructor` and any sequence of committed calls to
`AddVerifier`, `RemoveVerifier`, `AddVerifiedClient`, `UseBytes` and
`RestoreBytes` (aborting calls commit nothing), the key sets of the
`Verifiers` map and the `VerifiedClients` map are disjoint: every address
is missing from at least one of the two maps. -/
theorem C1_disjoint_key_sets (M : Int) (rk : Addr) (calls : List Call) (a : Addr) :
    mapGet (reach M rk calls).verifiers a = none ∨
    mapGet (reach M rk calls).verifiedClients a = none := by
  by_cases h1 : (mapGet (reach M rk calls).verifiers a).isSome
  · right
    obtain ⟨v, hv⟩ := mapGet_isSome_mem h1
    refine mapGet_eq_none_iff.mpr ?_
    intro w hw
    exact (KeyInv_reach M rk calls).1 (a, v) hv (a, w) hw rfl
  · left
    exact Option.not_isSome_iff_eq_none.mp h1

/-- Claim C2: a successful `AddVerifiedClient` call by verifier `u`
crediting `Allowance` to the resolved client `c` sets
`VerifiedClients[c] = Allowance` and `Verifiers[u] = oldCap − Allowance`,
so the new verifier cap plus the new client cap equals the old verifier
cap, and `c` was absent from `VerifiedClients` before the call. -/
theorem C2_addVerifiedClient_conservation (M : Int)
    (resolve : RawAddr → Option Addr) (u : Addr) (st st1 : State)
    (params : AddVerifiedClientParams) (c : Addr) (oldCap : Int)
    (hres : resolve params.Address = some c)
    (hold : mapGet st.verifiers u = some oldCap)
    (hok : AddVerifiedClient M resolve u st params = .ok st1) :
    mapGet st1.verifiedClients c = some params.Allowance ∧
    mapGet st1.verifiers u = some (oldCap - params.Allowance) ∧
    (oldCap - params.Allowance) + params.Allowance = oldCap ∧
    mapGet st.verifiedClients c = none := by
  obtain ⟨client, verifierCap, hres2, hmin, hroot, hcap, hclientVer, hcapGe,
    hcliAbs, hst1⟩ := AddVerifiedClient_ok_inv hok
  rw [hres] at hres2
  obtain rfl : c = client := Option.some.inj hres2
  rw [hold] at hcap
  obtain rfl : oldCap = verifierCap := Option.some.inj hcap
  subst hst1
  refine ⟨mapGet_mapPut_self _ _ _, ?_, by ring, hcliAbs⟩
  show mapGet (mapPut st.verifiers u (oldCap - params.Allowance)) u =
    some (oldCap - params.Allowance)
  exact mapGet_mapPut_self _ _ _

/-- Witness for C2: verifier 7 (cap 10000) credits 4000 to fresh client 8,
leaving caps 6000 and 4000 that sum to the old verifier cap. -/
theorem C2_witness :
    ((fun a : RawAddr => some a) 8 = some (8 : Addr)) ∧
    mapGet (State.mk 100 [(7, 10000)] [] : State).verifiers 7 = some 10000 ∧
    (mapGet (State.mk 100 [(7, 6000)] [(8, 4000)] : State).verifiedClients 8 =
       some 4000 ∧
     mapGet (State.mk 100 [(7, 6000)] [(8, 4000)] : State).verifiers 7 =
       some (10000 - 4000) ∧
     (10000 - 4000 : Int) + 4000 = 10000 ∧
     mapGet (State.mk 100 [(7, 10000)] [] : State).verifiedClients 8 = none) :=
  ⟨rfl, by decide,
    C2_addVerifiedClient_conservation 1024 (fun a => some a) 7
      (State.mk 100 [(7, 10000)] []) (State.mk 100 [(7, 6000)] [(8, 4000)])
      { Address := 8, Allowance := 4000 } 8 10000 rfl (by decide) (by decide)⟩

/-- Claim C3: a successful `UseBytes` call on verified client `c` with cap
`cap` deletes the entry when `cap − DealSize < MinVerifiedDealSize`
(including a residual of 0) and otherwise sets it to `cap − DealSize`;
moreover every `VerifiedClients` value of a committed state is at least
`MinVerifiedDealSize`, so no committed value `v` satisfies
`0 < v < MinVerifiedDealSize`. -/
theorem C3_useBytes_effect_and_floor (M : Int) (hM : 0 ≤ M) :
    (∀ (resolve : RawAddr → Option Addr) (caller : Addr) (st st1 : State)
       (params : UseBytesParams) (c : Addr) (cap : Int),
       resolve params.Address = some c →
       mapGet st.verifiedClients c = some cap →
       UseBytes M resolve caller st params = .ok st1 →
       ((cap - params.DealSize < M → mapGet st1.verifiedClients c = none) ∧
        (¬ cap - params.DealSize < M →
          mapGet st1.verifiedClients c = some (cap - params.DealSize)))) ∧
    (∀ (rk : Addr) (calls : List Call) (a : Addr) (v : Int),
       mapGet (reach M rk calls).verifiedClients a = some v → M ≤ v) := by
  constructor
  · intro resolve caller st st1 params c cap hres hcap hok
    obtain ⟨client, vcCap, hcaller, hres2, hmin, hcap2, hnonneg, hle, hcase⟩ :=
      UseBytes_ok_inv hok
    rw [hres] at hres2
    obtain rfl : c = client := Option.some.inj hres2
    rw [hcap] at hcap2
    obtain rfl : cap = vcCap := Option.some.inj hcap2
    rcases hcase with ⟨hsmall, m, hdel, hst1⟩ | ⟨hbig, hst1⟩ <;> subst hst1
    · exact ⟨fun _ => mapGet_mapDelete_self hdel, fun hbig => absurd hsmall hbig⟩
    · exact ⟨fun hsmall => absurd hsmall hbig, fun _ => mapGet_mapPut_self _ _ _⟩
  · intro rk calls a v hv
    exact (ValInv_reach hM rk calls).2 (a, v) (mapGet_some_mem hv)

/-- Witness for C3: using 3500 of client 8 (cap 4000) leaves a residual of
500 below the minimum 1024, so the entry is deleted. -/
theorem C3_witness :
    (0 : Int) ≤ 1024 ∧
    ((fun a : RawAddr => some a) 8 = some (8 : Addr)) ∧
    mapGet (State.mk 100 [(7, 6000)] [(8, 4000)] : State).verifiedClients 8 =
      some 4000 ∧
    UseBytes 1024 (fun a => some a) StorageMarketActorAddr
      (State.mk 100 [(7, 6000)] [(8, 4000)])
      { Address := 8, DealSize := 3500 } = .ok (State.mk 100 [(7, 6000)] []) ∧
    (4000 - 3500 : Int) < 1024 ∧
    mapGet (State.mk 100 [(7, 6000)] [] : State).verifiedClients 8 = none :=
  ⟨by decide, rfl, by decide, by decide, by decide,
    ((C3_useBytes_effect_and_floor 1024 (by decide)).1 (fun a => some a)
      StorageMarketActorAddr (State.mk 100 [(7, 6000)] [(8, 4000)])
      (State.mk 100 [(7, 6000)] []) { Address := 8, DealSize := 3500 } 8 4000
      rfl (by decide) (by decide)).1 (by decide)⟩

/-- Counterexample to claim C4: with `MinVerifiedDealSize = 1024`, a
`UseBytes` call whose deal size 100 is below the minimum and whose address
fails to resolve reports `IllegalState` (from the resolution, which the
code performs first), not `IllegalArgument` from the size check. -/
theorem C4_counterexample :
    (100 : Int) < 1024 ∧
    UseBytes 1024 (fun _ => none) StorageMarketActorAddr (ConstructState 100)
      { Address := 7, DealSize := 100 } = .error .illegalState :=
  ⟨by decide, by decide⟩

/-- Claim C4 as amended: in `UseBytes` the address resolution precedes the
deal-size check, so every call (by the storage-market actor) whose address
fails to resolve — in particular one whose deal size is also below the
minimum — reports `IllegalState` from the resolution failure. -/
theorem C4_amended_resolution_first (M : Int) (resolve : RawAddr → Option Addr)
    (st : State) (params : UseBytesParams)
    (h : resolve params.Address = none) :
    UseBytes M resolve StorageMarketActorAddr st params = .error .illegalState :=
  UseBytes_error_of_resolve_none h

/-- Witness for the amended C4 at a concrete input. -/
theorem C4_amended_witness :
    ((fun _ : RawAddr => (none : Option Addr)) 7 = none) ∧
    UseBytes 1024 (fun _ => none) StorageMarketActorAddr (State.mk 100 [] [])
      { Address := 7, DealSize := 100 } = .error .illegalState :=
  ⟨rfl, C4_amended_resolution_first 1024 (fun _ => none) (State.mk 100 [] [])
    { Address := 7, DealSize := 100 } rfl⟩

/-- Claim C5: in every committed state every value of `Verifiers` and of
`VerifiedClients` is non-negative, and under this invariant the
`Assert(cap ≥ 0)` of `UseBytes` never fires (no call on such a state
returns the assertion-violation outcome). -/
theorem C5_nonneg_and_assert (M : Int) (hM : 0 ≤ M) (rk : Addr)
    (calls : List Call) :
    (∀ p ∈ (reach M rk calls).verifiers, 0 ≤ p.2) ∧
    (∀ q ∈ (reach M rk calls).verifiedClients, 0 ≤ q.2) ∧
    (∀ (resolve : RawAddr → Option Addr) (caller : Addr)
       (params : UseBytesParams),
       UseBytes M resolve caller (reach M rk calls) params ≠
         .error .assertViolation) := by
  obtain ⟨hver, hcli⟩ := ValInv_reach hM rk calls
  exact ⟨hver, fun q hq => le_trans hM (hcli q hq),
    fun resolve caller params =>
      UseBytes_no_assert (fun q hq => le_trans hM (hcli q hq))⟩

/-- Witness for C5 at a concrete reachable state. -/
theorem C5_witness :
    (0 : Int) ≤ 1024 ∧
    ((7 : Addr), (10000 : Int)) ∈
      (reach 1024 100 [Call.addVerifier (fun a => some a) 100
        { Address := 7, Allowance := 10000 }]).verifiers ∧
    (0 : Int) ≤ 10000 :=
  ⟨by decide, by decide,
    (C5_nonneg_and_assert 1024 (by decide) 100
      [Call.addVerifier (fun a => some a) 100
        { Address := 7, Allowance := 10000 }]).1
      (7, 10000) (by decide)⟩

/-- Claim C6: in every committed state the root key is a key of neither
map, and the rejecting checks are as specified: `AddVerifier` rejects the
root key as verifier, and `AddVerifiedClient` and `RestoreBytes` reject
the root key as client, each with `IllegalArgument`. -/
theorem C6_root_isolation (M : Int) (rk : Addr) (calls : List Call) :
    mapGet (reach M rk calls).verifiers (reach M rk calls).rootKey = none ∧
    mapGet (reach M rk calls).verifiedClients (reach M rk calls).rootKey = none ∧
    (∀ (resolve : RawAddr → Option Addr) (st : State)
       (params : AddVerifierParams), ¬ params.Allowance < M →
       resolve params.Address = some st.rootKey →
       AddVerifier M resolve st.rootKey st params = .error .illegalArgument) ∧
    (∀ (resolve : RawAddr → Option Addr) (caller : Addr) (st : State)
       (params : AddVerifiedClientParams), ¬ params.Allowance < M →
       resolve params.Address = some st.rootKey →
       AddVerifiedClient M resolve caller st params = .error .illegalArgument) ∧
    (∀ (resolve : RawAddr → Option Addr) (st : State)
       (params : RestoreBytesParams), ¬ params.DealSize < M →
       resolve params.Address = some st.rootKey →
       RestoreBytes M resolve StorageMarketActorAddr st params =
         .error .illegalArgument) := by
  obtain ⟨hdisj, hverRoot, hcliRoot⟩ := KeyInv_reach M rk calls
  refine ⟨?_, ?_, ?_, ?_, ?_⟩
  · exact mapGet_eq_none_iff.mpr (fun v hv => hverRoot _ hv rfl)
  · exact mapGet_eq_none_iff.mpr (fun v hv => hcliRoot _ hv rfl)
  · exact fun resolve st params hmin hres => AddVerifier_error_of_root hmin hres
  · exact fun resolve caller st params hmin hres =>
      AddVerifiedClient_error_of_root hmin hres
  · exact fun resolve st params hmin hres => RestoreBytes_error_of_root hmin hres

/-- Witness for C6 at a concrete reachable state and a concrete rejected
call. -/
theorem C6_witness :
    mapGet (reach 1024 100 [Call.addVerifier (fun a => some a) 100
        { Address := 7, Allowance := 10000 }]).verifiers
      (reach 1024 100 [Call.addVerifier (fun a => some a) 100
        { Address := 7, Allowance := 10000 }]).rootKey = none ∧
    (1024 : Int) ≤ 2000 ∧
    AddVerifier 1024 (fun a => some a) 100 (State.mk 100 [] [])
      { Address := 100, Allowance := 2000 } = .error .illegalArgument :=
  ⟨(C6_root_isolation 1024 100 [Call.addVerifier (fun a => some a) 100
      { Address := 7, Allowance := 10000 }]).1,
   by decide,
   (C6_root_isolation 1024 100 []).2.2.1 (fun a => some a) (State.mk 100 [] [])
     { Address := 100, Allowance := 2000 } (by decide) rfl⟩

/-- Claim C7: a successful `RestoreBytes` call with resolved client `c`
sets `VerifiedClients[c]` to the previous value plus `DealSize` (with 0
for an absent entry, re-creating it) and leaves the `Verifiers` map
unchanged. -/
theorem C7_restoreBytes_effect (M : Int) (resolve : RawAddr → Option Addr)
    (caller : Addr) (st st1 : State) (params : RestoreBytesParams) (c : Addr)
    (hres : resolve params.Address = some c)
    (hok : RestoreBytes M resolve caller st params = .ok st1) :
    mapGet st1.verifiedClients c =
      some ((mapGet st.verifiedClients c).getD 0 + params.DealSize) ∧
    st1.verifiers = st.verifiers := by
  obtain ⟨client, hcaller, hmin, hres2, hroot, hcliVer, hst1⟩ :=
    RestoreBytes_ok_inv hok
  rw [hres] at hres2
  obtain rfl : c = client := Option.some.inj hres2
  subst hst1
  exact ⟨mapGet_mapPut_self _ _ _, rfl⟩

/-- Witness for C7: restoring 2000 bytes to a deleted client re-creates
its entry with cap 2000 and leaves the verifier cap untouched. -/
theorem C7_witness :
    ((fun a : RawAddr => some a) 8 = some (8 : Addr)) ∧
    RestoreBytes 1024 (fun a => some a) StorageMarketActorAddr
      (State.mk 100 [(7, 6000)] []) { Address := 8, DealSize := 2000 } =
      .ok (State.mk 100 [(7, 6000)] [(8, 2000)]) ∧
    (mapGet (State.mk 100 [(7, 6000)] [(8, 2000)] : State).verifiedClients 8 =
      some ((mapGet (State.mk 100 [(7, 6000)] [] : State).verifiedClients 8).getD 0
        + 2000) ∧
     (State.mk 100 [(7, 6000)] [(8, 2000)] : State).verifiers =
       (State.mk 100 [(7, 6000)] [] : State).verifiers) :=
  ⟨rfl, by decide,
    C7_restoreBytes_effect 1024 (fun a => some a) StorageMarketActorAddr
      (State.mk 100 [(7, 6000)] []) (State.mk 100 [(7, 6000)] [(8, 2000)])
      { Address := 8, DealSize := 2000 } 8 rfl (by decide)⟩

/-- Claim C8: a successful `AddVerifier` call whose resolved id `v` is
already a verifier with some prior cap replaces that cap: the resulting
`Verifiers[v]` equals the new allowance exactly, so repeated calls
overwrite rather than accumulate, and re-adding an existing verifier can
succeed. -/
theorem C8_addVerifier_overwrites (M : Int) (resolve : RawAddr → Option Addr)
    (caller : Addr) (st st1 : State) (params : AddVerifierParams)
    (v : Addr) (prior : Int)
    (hres : resolve params.Address = some v)
    (_hprior : mapGet st.verifiers v = some prior)
    (hok : AddVerifier M resolve caller st params = .ok st1) :
    mapGet st1.verifiers v = some params.Allowance := by
  obtain ⟨verifier, hres2, hmin, hcaller, hroot, hclient, hst1⟩ :=
    AddVerifier_ok_inv hok
  rw [hres] at hres2
  obtain rfl : v = verifier := Option.some.inj hres2
  subst hst1
  exact mapGet_mapPut_self _ _ _

/-- Witness for C8: re-adding verifier 7 (cap 10000) with allowance 2000
leaves it with cap exactly 2000. -/
theorem C8_witness :
    ((fun a : RawAddr => some a) 7 = some (7 : Addr)) ∧
    mapGet (State.mk 100 [(7, 10000)] [] : State).verifiers 7 = some 10000 ∧
    AddVerifier 1024 (fun a => some a) 100 (State.mk 100 [(7, 10000)] [])
      { Address := 7, Allowance := 2000 } =
      .ok (State.mk 100 [(7, 2000)] []) ∧
    mapGet (State.mk 100 [(7, 2000)] [] : State).verifiers 7 = some 2000 :=
  ⟨rfl, by decide, by decide,
    C8_addVerifier_overwrites 1024 (fun a => some a) 100
      (State.mk 100 [(7, 10000)] []) (State.mk 100 [(7, 2000)] [])
      { Address := 7, Allowance := 2000 } 7 10000 rfl (by decide) (by decide)⟩

/-- Claim C10: in `AddVerifier` the allowance minimum check and the address
resolution are executed before the caller is validated against the root
key: for a caller other than the root key, a below-minimum allowance
reports `IllegalArgument`, a failed resolution (with the allowance in
range) reports `IllegalState`, and the caller-authorization failure is
observed exactly when both earlier checks pass. -/
theorem C10_addVerifier_check_order (M : Int) (resolve : RawAddr → Option Addr)
    (caller : Addr) (st : State) (params : AddVerifierParams)
    (hc : caller ≠ st.rootKey) :
    (params.Allowance < M →
      AddVerifier M resolve caller st params = .error .illegalArgument) ∧
    (¬ params.Allowance < M → resolve params.Address = none →
      AddVerifier M resolve caller st params = .error .illegalState) ∧
    (∀ v, ¬ params.Allowance < M → resolve params.Address = some v →
      AddVerifier M resolve caller st params = .error .sysErrForbidden) :=
  ⟨fun h => AddVerifier_error_of_below_min h,
   fun h1 h2 => AddVerifier_error_of_resolve_none h1 h2,
   fun _ h1 h2 => AddVerifier_error_of_bad_caller h1 h2 hc⟩

/-- Witness for C10: a non-root caller with a below-minimum allowance gets
`IllegalArgument`, not the authorization failure. -/
theorem C10_witness :
    ((7 : Addr) ≠ (State.mk 100 [] [] : State).rootKey) ∧
    (100 : Int) < 1024 ∧
    AddVerifier 1024 (fun a => some a) 7 (State.mk 100 [] [])
      { Address := 9, Allowance := 100 } = .error .illegalArgument :=
  ⟨by decide, by decide,
    (C10_addVerifier_check_order 1024 (fun a => some a) 7 (State.mk 100 [] [])
      { Address := 9, Allowance := 100 } (by decide)).1 (by decide)⟩

end VerifReg

namespace Ipld

/-- Claim C9: on every `Get` of the metrics wrapper the read count always
increases by one while the read bytes increase by the block length only
when the underlying `Get` succeeds (and are unchanged on failure); on
every `Put` the write count and write bytes increase unconditionally,
whatever the underlying `Put` returns; and the wrapper exposes the
`ReadCount`, `WriteCount`, `ReadSize` and `WriteSize` accessors over its
counters. -/
theorem C9_metrics_counters (bs : Nat → Option Block)
    (put0 : Block → Option Unit) (ms : MetricsBlockStore) (c : Nat) (b : Block) :
    (MetricsBlockStore.Get bs ms c).1.Reads = ms.Reads + 1 ∧
    (MetricsBlockStore.Get bs ms c).1.ReadBytes =
      ms.ReadBytes + (match bs c with
        | some blk => blk.RawData.length
        | none => 0) ∧
    (MetricsBlockStore.Put put0 ms b).1.Writes = ms.Writes + 1 ∧
    (MetricsBlockStore.Put put0 ms b).1.WriteBytes =
      ms.WriteBytes + b.RawData.length ∧
    (MetricsBlockStore.Put put0 ms b).2 = put0 b ∧
    MetricsBlockStore.ReadCount ms = ms.Reads ∧
    MetricsBlockStore.WriteCount ms = ms.Writes ∧
    MetricsBlockStore.ReadSize ms = ms.ReadBytes ∧
    MetricsBlockStore.WriteSize ms = ms.WriteBytes := by
  cases hbs : bs c <;>
    simp [MetricsBlockStore.Get, MetricsBlockStore.Put, hbs,
      MetricsBlockStore.ReadCount, MetricsBlockStore.WriteCount,
      MetricsBlockStore.ReadSize, MetricsBlockStore.WriteSize]

end Ipld
